import Mathlib

/-!
Verification of the mondrian evidence-chain subsystem against its
natural-language specification.

The Go source is embedded shallowly:

* `internal/policy/scanner.go`-side data (`CheckResult`) and the attestation
  builder (`internal/evidence/attestation.go`, the file defining
  `NewAttestation`, `calculateSummary`, `calculateHash`) become pure Lean
  functions over explicit records.
* Machine effects are made explicit: `time.Now()` and `generateRunID()`
  become parameters, and the SHA-256 / JSON-marshal / time-format
  primitives are gathered in a `HashPrims` record of function parameters,
  since the claims under study never depend on the internals of those
  primitives, only on how the evidence code composes them.
* Go's `json.Marshal` can fail (a rule may place an unmarshalable value in
  `CheckResult.Metadata map[string]interface{}`), so the marshal primitive
  returns `Option String`, mirroring the `err != nil` branch the source
  checks in `calculateHash`.
-/

namespace Mondrian

/-- `policy.CheckResult` from `internal/policy` (the policy engine file):
`{RuleName, Status, Message, File, Line, Remediation, Metadata}`; the map
of `interface{}` metadata is modelled as opaque key/value text. -/
structure CheckResult where
  ruleName : String
  status : String
  message : String
  file : String
  line : Nat
  remediation : String
  metadata : List (String × String)
deriving DecidableEq, Repr

/-- `Summary` from the attestation builder. -/
structure Summary where
  totalChecks : Nat
  passed : Nat
  failed : Nat
  warnings : Nat
  overallStatus : String
deriving DecidableEq, Repr

/-- `ScannerInfo` from the attestation builder. -/
structure ScannerInfo where
  name : String
  version : String
  rulesUsed : List String
deriving DecidableEq, Repr

/-- `Subject` from the attestation builder: `{Name, Digest map[string]string}`. -/
structure Subject where
  name : String
  digest : List (String × String)
deriving DecidableEq, Repr

/-- `PolicyCheckPredicate` from the attestation builder. -/
structure PolicyCheckPredicate where
  results : List CheckResult
  summary : Summary
  repository : String
  branch : String
  commit : String
  workflow : String
  scanner : ScannerInfo
  filesScanned : List String
deriving DecidableEq, Repr

/-- `Attestation` from the attestation builder; `Timestamp time.Time` is
modelled as a `Nat` instant. -/
structure Attestation where
  predicateType : String
  subject : List Subject
  predicate : PolicyCheckPredicate
  timestamp : Nat
  runId : String
  parentHash : String
  hash : String
deriving DecidableEq, Repr

/-- `AttestationMetadata` from the attestation builder. -/
structure AttestationMetadata where
  repository : String
  branch : String
  commit : String
  workflow : String
  filesScanned : List String
  rulesUsed : List String
  parentHash : String
deriving DecidableEq, Repr

/-- The primitives the evidence code composes: `crypto/sha256` +
`encoding/hex` (as one hex-digest function), `encoding/json.Marshal`
restricted to `Attestation` (fallible), and `time.Time.Format` with the
RFC3339 layout used by the `calculateHash` fallback. The claims are
settled for every choice of these primitives. -/
structure HashPrims where
  sha256hex : String → String
  jsonMarshalAtt : Attestation → Option String
  rfc3339 : Nat → String

/-- `(*Attestation).calculateHash` from the attestation builder: hash the
JSON serialization of the record with the `Hash` field cleared; on a
marshal error, fall back to hashing `"<RunID>-<RFC3339 timestamp>"`. -/
def calculateHash (P : HashPrims) (a : Attestation) : String :=
  let temp := { a with hash := "" }
  match P.jsonMarshalAtt temp with
  | some data => P.sha256hex data
  | none => P.sha256hex (a.runId ++ "-" ++ P.rfc3339 a.timestamp)

/-- One iteration of the `for _, result := range results` loop in
`calculateSummary`: a `switch` on the status string. -/
def summaryStep (s : Summary) (r : CheckResult) : Summary :=
  if r.status = "pass" then { s with passed := s.passed + 1 }
  else if r.status = "fail" then { s with failed := s.failed + 1 }
  else if r.status = "warn" then { s with warnings := s.warnings + 1 }
  else s

/-- `calculateSummary` from the attestation builder: count statuses with a
loop, then derive `OverallStatus` (`fail` wins over `warn` wins over
`pass`). -/
def calculateSummary (results : List CheckResult) : Summary :=
  let s := results.foldl summaryStep
    { totalChecks := results.length, passed := 0, failed := 0, warnings := 0,
      overallStatus := "" }
  { s with overallStatus :=
      if s.failed > 0 then "fail"
      else if s.warnings > 0 then "warn"
      else "pass" }

/-- The record `NewAttestation` assembles before computing its hash
(`attestation := &Attestation{...}` in the source, whose `Hash` field is
still empty). The subject digests hash the file path string
(`sha256.Sum256([]byte(file))` — "Simple file path hash for now"). `now`
and `runId` stand for `time.Now().UTC()` and `generateRunID()`. -/
def newAttestationCore (P : HashPrims) (results : List CheckResult)
    (metadata : AttestationMetadata) (now : Nat) (runId : String) : Attestation :=
  { predicateType := "https://mondrian.dev/policy-check/v0.1"
    subject := metadata.filesScanned.map (fun file =>
      { name := file, digest := [("sha256", P.sha256hex file)] })
    predicate :=
      { results := results
        summary := calculateSummary results
        repository := metadata.repository
        branch := metadata.branch
        commit := metadata.commit
        workflow := metadata.workflow
        scanner := { name := "mondrian", version := "v0.1.0",
                     rulesUsed := metadata.rulesUsed }
        filesScanned := metadata.filesScanned }
    timestamp := now
    runId := runId
    parentHash := metadata.parentHash
    hash := "" }

/-- `NewAttestation` from the attestation builder: build the record, then
set `attestation.Hash = attestation.calculateHash()`. -/
def newAttestation (P : HashPrims) (results : List CheckResult)
    (metadata : AttestationMetadata) (now : Nat) (runId : String) : Attestation :=
  let att := newAttestationCore P results metadata now runId
  { att with hash := calculateHash P att }

end Mondrian

namespace Mondrian

/-!
Embedding of `internal/evidence/chain.go`. `time.Time` fields are `Nat`
instants; the evidence directory is a list of the relative file paths that
exist in it (that is all `VerifyChain`'s `os.Stat` probe asks of it), and
the persisted `chain.json` content is an `Option EvidenceChain`.
-/

/-- `ChainEntry` from `chain.go`. -/
structure ChainEntry where
  hash : String
  parentHash : String
  timestamp : Nat
  runId : String
  status : String
  filePath : String
deriving DecidableEq, Repr

/-- `EvidenceChain` from `chain.go`. -/
structure EvidenceChain where
  chainId : String
  startTime : Nat
  lastUpdated : Nat
  length : Nat
  head : String
  genesis : String
  attestations : List ChainEntry
deriving DecidableEq, Repr

/-- The empty chain `LoadOrCreateChain` initializes when `chain.json` is
absent: `Head` and `Genesis` are Go zero-value empty strings. -/
def emptyChain (chainId : String) (now : Nat) : EvidenceChain :=
  { chainId := chainId, startTime := now, lastUpdated := now, length := 0,
    head := "", genesis := "", attestations := [] }

/-- `(*ChainManager).AddAttestation` from `chain.go`, minus the final
`SaveChain` call (modelled separately): set the parent hash to the current
head (empty for genesis, in which case `chain.Genesis` is set to the
incoming attestation's *current* `Hash` field), overwrite
`attestation.ParentHash`, recompute `attestation.Hash`, and append the
derived `ChainEntry`. Returns the updated chain together with the mutated
attestation (the Go code mutates it through a pointer). -/
def addAttestation (P : HashPrims) (chain : EvidenceChain) (attestation : Attestation)
    (filePath : String) (now : Nat) : EvidenceChain × Attestation :=
  let parentHash := if chain.length = 0 then "" else chain.head
  let genesis := if chain.length = 0 then attestation.hash else chain.genesis
  let att1 := { attestation with parentHash := parentHash }
  let att2 := { att1 with hash := calculateHash P att1 }
  let entry : ChainEntry :=
    { hash := att2.hash, parentHash := parentHash, timestamp := att2.timestamp,
      runId := att2.runId, status := att2.predicate.summary.overallStatus,
      filePath := filePath }
  ({ chain with
      genesis := genesis
      attestations := chain.attestations ++ [entry]
      length := chain.length + 1
      head := att2.hash
      lastUpdated := now }, att2)

/-- `(*ChainManager).SaveChain` from `chain.go`, at the store interface:
`saveOk` says whether the `os.WriteFile` of `chain.json` succeeds. On
success the persisted index becomes the given chain; on failure it is
unchanged (the clean-failure case — the source writes in place, without
the temp-file-and-rename dance) and the wrapped write error is returned. -/
def saveChain (saveOk : Bool) (persisted : Option EvidenceChain)
    (chain : EvidenceChain) : Option EvidenceChain × Option String :=
  if saveOk then (some chain, none)
  else (persisted, some "failed to write chain file")

/-- `AddAttestation` including its trailing `return cm.SaveChain(chain)`:
the in-memory mutation happens first, unconditionally; only then is the
index persisted. Result: ((in-memory chain, mutated attestation),
persisted index, error). -/
def addAttestationSave (P : HashPrims) (saveOk : Bool)
    (persisted : Option EvidenceChain) (chain : EvidenceChain)
    (attestation : Attestation) (filePath : String) (now : Nat) :
    (EvidenceChain × Attestation) × Option EvidenceChain × Option String :=
  let ca := addAttestation P chain attestation filePath now
  let se := saveChain saveOk persisted ca.1
  (ca, se.1, se.2)

/-- The distinct failure cases of `VerifyChain` (each a distinct
`fmt.Errorf` in the source). -/
inductive ChainError where
  | genesisNonEmptyParent : ChainError
  | missingArtifact : String → ChainError
  | parentMismatch : Nat → ChainError
  | headMismatch : String → String → ChainError
deriving DecidableEq, Repr

deriving instance DecidableEq for Except

/-- Which entry position a `VerifyChain` error points at: the genesis
parent-hash error is about entry 0, the parent-mismatch error carries its
position explicitly; the other two do not name a position. -/
def errorPosition : ChainError → Option Nat
  | ChainError.genesisNonEmptyParent => some 0
  | ChainError.parentMismatch i => some i
  | _ => none

/-- The `for i, entry := range chain.Attestations` loop of `VerifyChain`:
for each entry, first probe the store for the artifact file, then (for
`i > 0`) compare `entry.ParentHash` with the previous entry's `Hash`.
`prev` carries the previous entry's hash (`none` before the first entry). -/
def verifyEntries (store : List String) : Nat → Option String → List ChainEntry →
    Except ChainError Unit
  | _, _, [] => Except.ok ()
  | i, prev, e :: rest =>
    if e.filePath ∈ store then
      match prev with
      | none => verifyEntries store (i + 1) (some e.hash) rest
      | some ph =>
        if e.parentHash = ph then verifyEntries store (i + 1) (some e.hash) rest
        else Except.error (ChainError.parentMismatch i)
    else Except.error (ChainError.missingArtifact e.filePath)

/-- `(*ChainManager).VerifyChain` from `chain.go`: the empty chain is
valid; entry 0 must have an empty parent hash; every entry's artifact must
exist and the parent-hash links must match; finally `chain.Head` must
equal the last entry's hash. `chain.Genesis` is never examined. -/
def verifyChain (store : List String) (chain : EvidenceChain) :
    Except ChainError Unit :=
  match chain.attestations with
  | [] => Except.ok ()
  | e0 :: rest =>
    if e0.parentHash ≠ "" then Except.error ChainError.genesisNonEmptyParent
    else
      match verifyEntries store 0 none (e0 :: rest) with
      | Except.error e => Except.error e
      | Except.ok _ =>
        let lastEntry := (e0 :: rest).getLast (List.cons_ne_nil e0 rest)
        if chain.head ≠ lastEntry.hash then
          Except.error (ChainError.headMismatch lastEntry.hash chain.head)
        else Except.ok ()

/-- `(*ChainManager).loadAttestationEntry` from `chain.go`, specialized to
an artifact that parses: the `ChainEntry` it builds from a stored
attestation record (note `ParentHash` stays the Go zero value `""` — the
caller re-derives links). -/
def entryOfArtifact (filePath : String) (a : Attestation) : ChainEntry :=
  { hash := a.hash, parentHash := "", timestamp := a.timestamp,
    runId := a.runId, status := a.predicate.summary.overallStatus,
    filePath := filePath }

/-- The re-linking loop of `ScanAndRepairChain`: walk the sorted entries,
overwriting each `ParentHash` with the previous entry's (stored) hash. -/
def relink : String → List ChainEntry → List ChainEntry
  | _, [] => []
  | prev, e :: rest => { e with parentHash := prev } :: relink e.hash rest

/-- `(*ChainManager).ScanAndRepairChain` from `chain.go`, over the already
loaded artifacts (file path, stored attestation) in store-walk order: if
no artifacts exist, a fresh empty chain; otherwise derive entries, sort
them by embedded timestamp (`sort.Slice` with `Before`; on distinct
timestamps the result is the unique ascending arrangement, so any correct
comparison sort is a faithful model), re-derive parent links in sorted
order, and rebuild `StartTime`/`Genesis`/`Head`/`Length` from the result. -/
def scanAndRepair (chainId : String) (now : Nat)
    (artifacts : List (String × Attestation)) : EvidenceChain :=
  match artifacts with
  | [] => emptyChain chainId now
  | _ =>
    let entries := artifacts.map (fun fa => entryOfArtifact fa.1 fa.2)
    let sorted := entries.insertionSort (fun a b => a.timestamp ≤ b.timestamp)
    let rebuilt := relink "" sorted
    match rebuilt with
    | [] => emptyChain chainId now
    | r0 :: rs =>
      { chainId := chainId
        startTime := r0.timestamp
        lastUpdated := now
        length := (r0 :: rs).length
        head := ((r0 :: rs).getLast (List.cons_ne_nil r0 rs)).hash
        genesis := r0.hash
        attestations := r0 :: rs }

/-- Sequentially appending a list of (attestation, artifact path,
`time.Now()` instant) triples, each through `AddAttestation` (saves
assumed to succeed). -/
def appendList (P : HashPrims) (chain : EvidenceChain)
    (items : List (Attestation × String × Nat)) : EvidenceChain :=
  items.foldl (fun c it => (addAttestation P c it.1 it.2.1 it.2.2).1) chain

end Mondrian

namespace Mondrian

/-!
Embedding of the signing/verification file (src/unnamed/part_002).
Signature byte strings and payloads stay `String`; the ECDSA public key
is an opaque curve point.
-/

/-- An ECDSA P-256 public key, opaque to the claims under study. -/
structure ECDSAPublicKey where
  x : Nat
  y : Nat
deriving DecidableEq, Repr

/-- A DSSE envelope signature `{keyid, sig}`. -/
structure DsseSignature where
  keyid : String
  sig : String
deriving DecidableEq, Repr

/-- A DSSE envelope `{payloadType, payload, signatures}`. -/
structure DsseEnvelope where
  payloadType : String
  payload : String
  signatures : List DsseSignature
deriving DecidableEq, Repr

/-- `SigningMetadata` from the signing file. -/
structure SigningMetadata where
  keyId : String
  algorithm : String
  timestamp : Nat
  source : String
deriving DecidableEq, Repr

/-- `SignedAttestation` from the signing file. -/
structure SignedAttestation where
  envelope : DsseEnvelope
  metadata : SigningMetadata
deriving DecidableEq, Repr

/-- `(*ECDSAVerifier).Verify` from the signing file. The source reads:
`// For demo purposes, just return success` — it prints a line and returns
`nil` without reading `data`, `signature` or the public key. -/
def ecdsaVerifierVerify (keyId : String) (publicKey : ECDSAPublicKey)
    (data : String) (signature : String) : Except String Unit :=
  Except.ok ()

/-- DSSE pre-authentication encoding of the payload, as the external
`go-securesystemslib/dsse` library computes it before calling a
`Verifier`. -/
def pae (payloadType payload : String) : String :=
  "DSSEv1 " ++ toString payloadType.length ++ " " ++ payloadType ++ " "
    ++ toString payload.length ++ " " ++ payload

/-- The external `dsse.EnvelopeVerifier` with one `Verifier` and the
default threshold 1 (an external collaborator, modelled at its interface):
a signature is accepted when its key id is compatible with the verifier's
and the verifier accepts (PAE(payloadType, payload), signature);
verification succeeds when at least one signature is accepted. -/
def dsseVerify (verify : String → String → Except String Unit)
    (verifierKeyId : String) (env : DsseEnvelope) : Except String Unit :=
  let accepted := env.signatures.filter (fun s =>
    (s.keyid == verifierKeyId || s.keyid == "" || verifierKeyId == "") &&
      match verify (pae env.payloadType env.payload) s.sig with
      | Except.ok _ => true
      | Except.error _ => false)
  if accepted.length ≥ 1 then Except.ok ()
  else Except.error "accepted signatures do not match threshold"

/-- `VerifySignedAttestation` from the signing file: build an
`ECDSAVerifier` from the envelope metadata's key id and the supplied
public key, and run the DSSE envelope verification with it. -/
def verifySignedAttestation (signed : SignedAttestation)
    (publicKey : ECDSAPublicKey) : Except String Unit :=
  dsseVerify (ecdsaVerifierVerify signed.metadata.keyId publicKey)
    signed.metadata.keyId signed.envelope

/-- The shape of the `SignedAttestation` that `SignAttestation` produces:
one signature, keyed by the signer's key id, over the serialized payload;
`signingMetadata` repeats the key id. (The ECDSA signing bytes themselves
are irrelevant to the claims, so they are a parameter.) -/
def mkSignedAttestation (keyId payload sigBytes : String) (ts : Nat)
    (source : String) : SignedAttestation :=
  { envelope :=
      { payloadType := "application/vnd.in-toto+json"
        payload := payload
        signatures := [{ keyid := keyId, sig := sigBytes }] }
    metadata :=
      { keyId := keyId, algorithm := "ECDSA-SHA256", timestamp := ts,
        source := source } }

/-!
Embedding of `SaveSignedAttestation` (signing file) and
`findAttestationFiles` (`chain.go`) at the level the file-name claim
needs. Go strings are byte strings here; they are modelled as `List Char`
so that `strings.HasPrefix`/`HasSuffix` are elementwise. -/

/-- `strings.HasPrefix`. -/
def goHasStart : List Char → List Char → Bool
  | _, [] => true
  | [], _ :: _ => false
  | a :: s, b :: p => a == b && goHasStart s p

/-- `strings.HasSuffix`. -/
def goHasEnd (s p : List Char) : Bool :=
  goHasStart s.reverse p.reverse

/-- The file name `SaveSignedAttestation` writes:
`fmt.Sprintf("attestation-%s-%s.json", timestamp, signed.Metadata.KeyID[:8])`
where `timestamp` is the signing instant formatted with layout
`"20060102-150405"` (the instant was taken with `.UTC()`), and the key id
is 16 hex characters of which the first 8 are kept. `fmtTime` stands for
the Go time formatter. -/
def savedAttestationFileName (fmtTime : Nat → List Char)
    (signed : SignedAttestation) : List Char :=
  "attestation-".toList ++ fmtTime signed.metadata.timestamp ++ "-".toList
    ++ signed.metadata.keyId.toList.take 8 ++ ".json".toList

/-- The per-file filter of `findAttestationFiles`: keep non-directory
entries whose name starts with `"attestation-"` and ends with `".json"`. -/
def isAttestationFileName (name : List Char) : Bool :=
  goHasStart name "attestation-".toList && goHasEnd name ".json".toList

/-- `(*ChainManager).findAttestationFiles` from `chain.go`, over the list
of file names the directory walk visits. -/
def findAttestationFiles (names : List (List Char)) : List (List Char) :=
  names.filter isAttestationFileName

end Mondrian

namespace Mondrian

lemma summaryStep_foldl (rs : List CheckResult) (s : Summary) :
    (rs.foldl summaryStep s).passed
        = s.passed + rs.countP (fun r => r.status == "pass") ∧
      (rs.foldl summaryStep s).failed
        = s.failed + rs.countP (fun r => r.status == "fail") ∧
      (rs.foldl summaryStep s).warnings
        = s.warnings + rs.countP (fun r => r.status == "warn") ∧
      (rs.foldl summaryStep s).totalChecks = s.totalChecks := by
  induction rs generalizing s with
  | nil => simp
  | cons r rs ih =>
    obtain ⟨ih1, ih2, ih3, ih4⟩ := ih (summaryStep s r)
    refine ⟨?_, ?_, ?_, ?_⟩ <;>
      · simp only [List.foldl_cons, List.countP_cons, ih1, ih2, ih3, ih4]
        by_cases h1 : r.status = "pass" <;>
          by_cases h2 : r.status = "fail" <;>
            by_cases h3 : r.status = "warn" <;>
              simp_all [summaryStep] <;> omega

/-- C9: for every list of check outcomes, `calculateSummary` counts the
total, the passes, the failures and the warnings, and derives
`overallStatus` by the fail-over-warn-over-pass precedence rule. -/
theorem claim_C9 (rs : List CheckResult) :
    (calculateSummary rs).totalChecks = rs.length ∧
      (calculateSummary rs).passed = rs.countP (fun r => r.status == "pass") ∧
      (calculateSummary rs).failed = rs.countP (fun r => r.status == "fail") ∧
      (calculateSummary rs).warnings = rs.countP (fun r => r.status == "warn") ∧
      (calculateSummary rs).overallStatus =
        (if 0 < rs.countP (fun r => r.status == "fail") then "fail"
         else if 0 < rs.countP (fun r => r.status == "warn") then "warn"
         else "pass") := by
  obtain ⟨h1, h2, h3, h4⟩ := summaryStep_foldl rs
    { totalChecks := rs.length, passed := 0, failed := 0, warnings := 0,
      overallStatus := "" }
  simp only [calculateSummary, h1, h2, h3, h4, Nat.zero_add]
  exact ⟨trivial, trivial, trivial, trivial, trivial⟩

/-- C2: the subjects `NewAttestation` builds digest the file *path*
string: for every choice of primitives, results, metadata and run
identity, each subject's sole `sha256` digest entry is the digest of the
path, and no file content enters the computation (the builder has no
access to file contents at all). -/
theorem claim_C2 (P : HashPrims) (results : List CheckResult)
    (metadata : AttestationMetadata) (now : Nat) (runId : String) :
    (newAttestation P results metadata now runId).subject
      = metadata.filesScanned.map (fun file =>
          { name := file, digest := [("sha256", P.sha256hex file)] }) := rfl

/-- Concrete primitives whose JSON marshal always fails, to exercise the
fallback branch of `calculateHash`. -/
def hashPrimsFailing : HashPrims :=
  { sha256hex := fun s => s, jsonMarshalAtt := fun _ => none,
    rfc3339 := fun n => toString n }

/-- Concrete primitives whose marshal always succeeds and whose digest is
injective on the serialized `runId`/`parentHash` pair. -/
def hashPrimsId : HashPrims :=
  { sha256hex := fun s => s,
    jsonMarshalAtt := fun a => some (a.runId ++ "|" ++ a.parentHash),
    rfc3339 := fun n => toString n }

/-- A concrete `AttestationMetadata`. -/
def mdEx : AttestationMetadata :=
  { repository := "r", branch := "b", commit := "c", workflow := "w",
    filesScanned := [], rulesUsed := [], parentHash := "" }

/-- C7 counterexample: when the record cannot be serialized, the builder
does not fail — `NewAttestation` still returns an attestation, whose hash
is the fallback digest of `"<runId>-<timestamp>"` rather than of any
canonical serialization. -/
theorem claim_C7_cex :
    hashPrimsFailing.jsonMarshalAtt
        (newAttestationCore hashPrimsFailing [] mdEx 5 "run1") = none ∧
      (newAttestation hashPrimsFailing [] mdEx 5 "run1").hash = "run1-5" :=
  ⟨rfl, rfl⟩

/-- C7 amended: if the canonical serialization of the (hash-cleared)
record fails, `NewAttestation` does not abort; it produces an attestation
whose hash is the fallback digest of `runId ++ "-" ++ rfc3339 timestamp`. -/
theorem claim_C7_amended (P : HashPrims) (results : List CheckResult)
    (metadata : AttestationMetadata) (now : Nat) (runId : String)
    (h : P.jsonMarshalAtt (newAttestationCore P results metadata now runId) = none) :
    (newAttestation P results metadata now runId).hash
      = P.sha256hex (runId ++ "-" ++ P.rfc3339 now) := by
  simp only [newAttestationCore] at h
  simp [newAttestation, calculateHash, newAttestationCore, h]

/-- C7 amended, witnessed at the concrete failing primitives. -/
theorem claim_C7_amended_witness :
    (newAttestation hashPrimsFailing [] mdEx 5 "run1").hash
      = hashPrimsFailing.sha256hex ("run1" ++ "-" ++ hashPrimsFailing.rfc3339 5) :=
  claim_C7_amended hashPrimsFailing [] mdEx 5 "run1" rfl

/-- C1: signature verification is not genuine asymmetric verification —
because `ECDSAVerifier.Verify` unconditionally reports success, a signed
attestation of the shape the signer produces verifies under *every* public
key, and still verifies after the payload is replaced by anything at all
(in particular after flipping one bit). -/
theorem claim_C1 (keyId payload sigBytes : String) (ts : Nat) (source : String)
    (pk pk' : ECDSAPublicKey) (tampered : String) :
    verifySignedAttestation (mkSignedAttestation keyId payload sigBytes ts source)
        pk = Except.ok () ∧
      verifySignedAttestation
        { mkSignedAttestation keyId payload sigBytes ts source with
            envelope :=
              { payloadType := "application/vnd.in-toto+json",
                payload := tampered,
                signatures := [{ keyid := keyId, sig := sigBytes }] } }
        pk' = Except.ok () := by
  constructor <;>
    simp [verifySignedAttestation, dsseVerify, ecdsaVerifierVerify,
      mkSignedAttestation, List.filter]

/-- C4 counterexample: a one-entry chain whose `genesis` field is plainly
not the first entry's hash, with every other linkage intact. -/
def chainGenesisBad : EvidenceChain :=
  { chainId := "c", startTime := 0, lastUpdated := 1, length := 1,
    head := "h1", genesis := "bogus",
    attestations := [{ hash := "h1", parentHash := "", timestamp := 1,
                       runId := "r1", status := "pass", filePath := "f1" }] }

/-- C4 counterexample: `VerifyChain` accepts a chain whose stored
`genesis` differs from the hash of its first entry while all other linkage
is intact — no head/genesis-mismatch error is raised for it. -/
theorem claim_C4_cex :
    verifyChain ["f1"] chainGenesisBad = Except.ok () ∧
      chainGenesisBad.genesis = "bogus" ∧
      chainGenesisBad.attestations.map (fun e => e.hash) = ["h1"] ∧
      ("bogus" : String) ≠ "h1" := by
  refine ⟨?_, rfl, rfl, by decide⟩
  rfl

/-- C4 amended: `VerifyChain` never examines `chain.Genesis` — its verdict
is invariant under arbitrary rewrites of the genesis field (it does check
`chain.Head` against the final entry's hash, inside `verifyChain`). -/
theorem claim_C4_amended (store : List String) (chain : EvidenceChain)
    (g : String) :
    verifyChain store { chain with genesis := g } = verifyChain store chain := rfl

/-- C6 counterexample input: a concrete attestation built by the builder. -/
def attEx : Attestation := newAttestation hashPrimsId [] mdEx 3 "run1"

/-- C6 counterexample: appending to an empty chain with a failing index
write reports the persist error, yet the chain object has gained an entry
(`length` 0 → 1) — the append was not all-or-nothing on the chain. -/
theorem claim_C6_cex :
    (addAttestationSave hashPrimsId false none (emptyChain "c" 0) attEx
        "f1" 3).2.2 = some "failed to write chain file" ∧
      ((addAttestationSave hashPrimsId false none (emptyChain "c" 0) attEx
        "f1" 3).1.1).length = 1 ∧
      (emptyChain "c" 0).length = 0 := by
  refine ⟨rfl, rfl, rfl⟩

/-- C6 amended: if persisting the index fails during append, the persisted
index is unchanged and the error is surfaced (so the attestation is not
durably committed), but the append is not all-or-nothing on the chain
object: before the save is attempted the entry has already been appended
and `length` incremented and `lastUpdated` rewritten. -/
theorem claim_C6_amended (P : HashPrims) (persisted : Option EvidenceChain)
    (chain : EvidenceChain) (a : Attestation) (f : String) (n : Nat) :
    (addAttestationSave P false persisted chain a f n).2.1 = persisted ∧
      (addAttestationSave P false persisted chain a f n).2.2
        = some "failed to write chain file" ∧
      (addAttestationSave P false persisted chain a f n).1
        = addAttestation P chain a f n ∧
      ((addAttestationSave P false persisted chain a f n).1.1).length
        = chain.length + 1 ∧
      ((addAttestationSave P false persisted chain a f n).1.1).attestations.length
        = chain.attestations.length + 1 ∧
      ((addAttestationSave P false persisted chain a f n).1.1).lastUpdated = n := by
  refine ⟨rfl, rfl, rfl, rfl, ?_, rfl⟩
  simp [addAttestationSave, addAttestation]

lemma goHasStart_append (p r : List Char) : goHasStart (p ++ r) p = true := by
  induction p with
  | nil => cases r <;> simp [goHasStart]
  | cons b p ih => simp [goHasStart, ih]

lemma goHasEnd_append (r p : List Char) : goHasEnd (r ++ p) p = true := by
  rw [goHasEnd, List.reverse_append]
  exact goHasStart_append _ _

/-- C10: the artifact name `SaveSignedAttestation` writes —
`attestation-<formatted UTC timestamp>-<first 8 chars of the keyId>.json` —
passes the `attestation-`/`.json` name filter of the rebuild scan, so
every saved signed attestation present in the walked directory is
returned by `findAttestationFiles`. -/
theorem claim_C10 (fmtTime : Nat → List Char) (signed : SignedAttestation)
    (names : List (List Char))
    (hmem : savedAttestationFileName fmtTime signed ∈ names) :
    isAttestationFileName (savedAttestationFileName fmtTime signed) = true ∧
      savedAttestationFileName fmtTime signed ∈ findAttestationFiles names := by
  have h1 : isAttestationFileName (savedAttestationFileName fmtTime signed)
      = true := by
    unfold isAttestationFileName savedAttestationFileName
    rw [Bool.and_eq_true]
    refine ⟨?_, goHasEnd_append _ _⟩
    rw [show "attestation-".toList ++ fmtTime signed.metadata.timestamp
          ++ "-".toList ++ signed.metadata.keyId.toList.take 8 ++ ".json".toList
        = "attestation-".toList ++ (fmtTime signed.metadata.timestamp
            ++ ("-".toList
              ++ (signed.metadata.keyId.toList.take 8 ++ ".json".toList)))
        from by simp [List.append_assoc]]
    exact goHasStart_append _ _
  exact ⟨h1, List.mem_filter.mpr ⟨hmem, h1⟩⟩

/-- A concrete signed attestation and directory listing for the C10
witness. -/
def signedEx : SignedAttestation :=
  mkSignedAttestation "0123456789abcdef" "payload" "sig" 7 "local"

/-- The parent-hash linkage discipline of a chain entry list, threading
the hash an entry's `parentHash` must repeat (`none` before the first
entry, whose parent is unchecked here). -/
def linkedFrom : Option String → List ChainEntry → Bool
  | _, [] => true
  | none, e :: rest => linkedFrom (some e.hash) rest
  | some ph, e :: rest => (e.parentHash == ph) && linkedFrom (some e.hash) rest

/-- The hash of the final entry of a list, seeded with the hash of the
entry before the list (if any). -/
def lastHash : Option String → List ChainEntry → Option String
  | prev, [] => prev
  | _, e :: rest => lastHash (some e.hash) rest

lemma lastHash_append_single (l : List ChainEntry) (prev : Option String)
    (e : ChainEntry) : lastHash prev (l ++ [e]) = some e.hash := by
  induction l generalizing prev with
  | nil => rfl
  | cons x l ih => exact ih (some x.hash)

lemma lastHash_cons_getLast (e : ChainEntry) (rest : List ChainEntry)
    (prev : Option String) :
    lastHash prev (e :: rest)
      = some (((e :: rest)).getLast (List.cons_ne_nil e rest)).hash := by
  induction rest generalizing e prev with
  | nil => rfl
  | cons e2 r2 ih =>
    rw [show lastHash prev (e :: e2 :: r2) = lastHash (some e.hash) (e2 :: r2)
        from rfl]
    rw [ih e2 (some e.hash)]
    exact congrArg (fun x => some x.hash)
      (List.getLast_cons (List.cons_ne_nil e2 r2)).symm

lemma linkedFrom_snoc (l : List ChainEntry) (prev : Option String)
    (e : ChainEntry) :
    linkedFrom prev (l ++ [e])
      = (linkedFrom prev l &&
          match lastHash prev l with
          | none => true
          | some h => e.parentHash == h) := by
  induction l generalizing prev with
  | nil => cases prev <;> simp [linkedFrom, lastHash]
  | cons x l ih =>
    cases prev with
    | none => simpa [linkedFrom, lastHash] using ih (some x.hash)
    | some ph => simp [linkedFrom, lastHash, ih (some x.hash), Bool.and_assoc]

lemma verifyEntries_ok (store : List String) (l : List ChainEntry) :
    ∀ (i : Nat) (prev : Option String),
      (∀ e ∈ l, e.filePath ∈ store) → linkedFrom prev l = true →
      verifyEntries store i prev l = Except.ok () := by
  induction l with
  | nil => intro i prev _ _; rfl
  | cons e rest ih =>
    intro i prev hpaths hlink
    have hfile : e.filePath ∈ store := hpaths e (by simp)
    have hrest : ∀ x ∈ rest, x.filePath ∈ store := fun x hx =>
      hpaths x (by simp [hx])
    cases prev with
    | none =>
      have hlink' : linkedFrom (some e.hash) rest = true := hlink
      simp only [verifyEntries, if_pos hfile]
      exact ih (i + 1) (some e.hash) hrest hlink'
    | some ph =>
      simp only [linkedFrom, Bool.and_eq_true, beq_iff_eq] at hlink
      obtain ⟨hpe, hlink'⟩ := hlink
      simp only [verifyEntries, if_pos hfile, if_pos hpe]
      exact ih (i + 1) (some e.hash) hrest hlink'

/-- The invariant `AddAttestation` maintains and `VerifyChain` checks:
`length` agrees with the entry count, the parent links are intact, every
artifact is present, and (for nonempty chains) the first entry has no
parent while `head`/`genesis` name the last/first entry's hash. -/
def ChainInv (store : List String) (c : EvidenceChain) : Prop :=
  c.length = c.attestations.length ∧
    linkedFrom none c.attestations = true ∧
    (∀ e ∈ c.attestations, e.filePath ∈ store) ∧
    (∀ e0 rest, c.attestations = e0 :: rest →
      e0.parentHash = "" ∧ some c.head = lastHash none c.attestations ∧
        c.genesis = e0.hash)

lemma chainInv_verify (store : List String) (c : EvidenceChain)
    (h : ChainInv store c) : verifyChain store c = Except.ok () := by
  obtain ⟨hlen, hlink, hpaths, hhead⟩ := h
  cases hc : c.attestations with
  | nil => simp [verifyChain, hc]
  | cons e0 rest =>
    obtain ⟨hp0, hhd, _⟩ := hhead e0 rest hc
    rw [hc] at hlink hpaths hhd
    have hve := verifyEntries_ok store (e0 :: rest) 0 none hpaths hlink
    rw [lastHash_cons_getLast e0 rest none] at hhd
    have hhead_eq : c.head = ((e0 :: rest).getLast (List.cons_ne_nil e0 rest)).hash :=
      Option.some.inj hhd
    simp [verifyChain, hc, hp0, hve, hhead_eq]

lemma addAttestation_empty (P : HashPrims) (cid : String) (t0 : Nat)
    (a : Attestation) (f : String) (n : Nat) :
    (addAttestation P (emptyChain cid t0) a f n).1 =
      { chainId := cid, startTime := t0, lastUpdated := n, length := 1,
        head := calculateHash P { a with parentHash := "" },
        genesis := a.hash,
        attestations := [{ hash := calculateHash P { a with parentHash := "" },
                           parentHash := "", timestamp := a.timestamp,
                           runId := a.runId,
                           status := a.predicate.summary.overallStatus,
                           filePath := f }] } := rfl

lemma chainInv_add_genesis (P : HashPrims) (store : List String) (cid : String)
    (t0 : Nat) (a : Attestation) (f : String) (n : Nat)
    (ha : a.hash = calculateHash P { a with parentHash := "" })
    (hf : f ∈ store) :
    ChainInv store (addAttestation P (emptyChain cid t0) a f n).1 ∧
      (addAttestation P (emptyChain cid t0) a f n).1.attestations ≠ [] ∧
      (addAttestation P (emptyChain cid t0) a f n).1.length = 1 := by
  rw [addAttestation_empty]
  refine ⟨⟨rfl, rfl, ?_, ?_⟩, by simp, rfl⟩
  · intro e he
    simp only [List.mem_singleton] at he
    subst he
    simpa using hf
  · intro e0 rest hc
    simp only [List.cons.injEq] at hc
    obtain ⟨he0, hrest⟩ := hc
    subst hrest
    subst he0
    exact ⟨rfl, rfl, ha⟩

lemma chainInv_add (P : HashPrims) (store : List String) (c : EvidenceChain)
    (a : Attestation) (f : String) (n : Nat)
    (hInv : ChainInv store c) (hne : c.attestations ≠ []) (hf : f ∈ store) :
    ChainInv store (addAttestation P c a f n).1 ∧
      (addAttestation P c a f n).1.attestations ≠ [] ∧
      (addAttestation P c a f n).1.attestations.head? = c.attestations.head? ∧
      (addAttestation P c a f n).1.length = c.length + 1 ∧
      (addAttestation P c a f n).1.genesis = c.genesis := by
  obtain ⟨hlen, hlink, hpaths, hhead⟩ := hInv
  obtain ⟨e0, rest, hc⟩ : ∃ e0 rest, c.attestations = e0 :: rest := by
    cases hcc : c.attestations with
    | nil => exact absurd hcc hne
    | cons x xs => exact ⟨x, xs, rfl⟩
  obtain ⟨hp0, hhd, hgen⟩ := hhead e0 rest hc
  have hlen0 : ¬c.length = 0 := by rw [hlen, hc]; simp
  refine ⟨⟨?_, ?_, ?_, ?_⟩, ?_, ?_, ?_, ?_⟩
  · simp [addAttestation, if_neg hlen0, hlen]
  · simp only [addAttestation, if_neg hlen0]
    rw [hc, linkedFrom_snoc]
    rw [hc] at hlink hhd
    rw [← hhd]
    simp [hlink]
  · intro e he
    simp only [addAttestation, if_neg hlen0] at he
    rcases List.mem_append.mp he with h | h
    · exact hpaths e h
    · simp only [List.mem_singleton] at h
      subst h
      simpa using hf
  · intro x xs hx
    simp only [addAttestation, if_neg hlen0] at hx ⊢
    rw [hc, List.cons_append] at hx
    obtain ⟨hx0, hxs⟩ := List.cons.injEq .. ▸ hx
    refine ⟨hx0 ▸ hp0, ?_, ?_⟩
    · rw [hc, List.cons_append, ← List.cons_append, lastHash_append_single]
    · rw [hgen, hx0]
  · simp [addAttestation, if_neg hlen0]
  · simp [addAttestation, if_neg hlen0, hc]
  · simp [addAttestation, if_neg hlen0]
  · simp [addAttestation, if_neg hlen0]

lemma appendList_cons (P : HashPrims) (c : EvidenceChain)
    (it : Attestation × String × Nat) (items : List (Attestation × String × Nat)) :
    appendList P c (it :: items)
      = appendList P (addAttestation P c it.1 it.2.1 it.2.2).1 items := rfl

lemma chainInv_appendList (P : HashPrims) (store : List String) :
    ∀ (items : List (Attestation × String × Nat)) (c : EvidenceChain),
      ChainInv store c → c.attestations ≠ [] →
      (∀ it ∈ items, it.2.1 ∈ store) →
      ChainInv store (appendList P c items) ∧
        (appendList P c items).attestations ≠ [] ∧
        (appendList P c items).attestations.head? = c.attestations.head? ∧
        (appendList P c items).length = c.length + items.length := by
  intro items
  induction items with
  | nil => intro c h hne _; exact ⟨h, hne, rfl, by simp [appendList]⟩
  | cons it items ih =>
    intro c h hne hst
    have hf : it.2.1 ∈ store := hst it (by simp)
    obtain ⟨h1, h2, h3, h4, _⟩ := chainInv_add P store c it.1 it.2.1 it.2.2 h hne hf
    have hst' : ∀ x ∈ items, x.2.1 ∈ store := fun x hx => hst x (by simp [hx])
    obtain ⟨g1, g2, g3, g4⟩ :=
      ih (addAttestation P c it.1 it.2.1 it.2.2).1 h1 h2 hst'
    rw [appendList_cons]
    refine ⟨g1, g2, g3.trans h3, ?_⟩
    rw [g4, h4, List.length_cons]
    omega

/-- C3: appending any number of builder-correct attestations in order to
an initially empty chain, with every artifact present in the store, yields
a chain that `VerifyChain` accepts, whose `length` is the number of
appends, whose `head` is the hash of the last entry, and whose `genesis`
is the hash of the first entry. (The first appended attestation carries
the hash the builder computed for it with an empty parent hint, which is
what `mondrian attest` passes when the chain is empty.) -/
theorem claim_C3 (P : HashPrims) (store : List String) (cid : String) (t0 : Nat)
    (items : List (Attestation × String × Nat))
    (hstore : ∀ it ∈ items, it.2.1 ∈ store)
    (hfirst : match items with
      | [] => True
      | (a, _, _) :: _ => a.hash = calculateHash P { a with parentHash := "" }) :
    verifyChain store (appendList P (emptyChain cid t0) items) = Except.ok () ∧
      (appendList P (emptyChain cid t0) items).length = items.length ∧
      (∀ e0 rest,
        (appendList P (emptyChain cid t0) items).attestations = e0 :: rest →
          (appendList P (emptyChain cid t0) items).head
              = ((e0 :: rest).getLast (List.cons_ne_nil e0 rest)).hash ∧
            (appendList P (emptyChain cid t0) items).genesis = e0.hash) := by
  cases items with
  | nil =>
    refine ⟨rfl, rfl, ?_⟩
    intro e0 rest h
    exact absurd h (by simp [appendList, emptyChain])
  | cons it items =>
    obtain ⟨a, f, n⟩ := it
    have ha : a.hash = calculateHash P { a with parentHash := "" } := hfirst
    have hf : f ∈ store := hstore (a, f, n) (by simp)
    obtain ⟨h1, h2, h3⟩ := chainInv_add_genesis P store cid t0 a f n ha hf
    have hst' : ∀ x ∈ items, x.2.1 ∈ store := fun x hx => hstore x (by simp [hx])
    obtain ⟨g1, g2, g3, g4⟩ := chainInv_appendList P store items _ h1 h2 hst'
    rw [appendList_cons]
    refine ⟨chainInv_verify store _ g1, ?_, ?_⟩
    · rw [g4, h3, List.length_cons]
      omega
    · intro e0 rest hc
      obtain ⟨_, _, _, hhead'⟩ := g1
      obtain ⟨_, hhd, hgen⟩ := hhead' e0 rest hc
      constructor
      · rw [hc, lastHash_cons_getLast e0 rest none] at hhd
        exact Option.some.inj hhd
      · exact hgen

/-- A concrete predicate record for witness chains. -/
def predEx : PolicyCheckPredicate :=
  { results := [], summary := calculateSummary [], repository := "r",
    branch := "b", commit := "c", workflow := "w",
    scanner := { name := "mondrian", version := "v0.1.0", rulesUsed := [] },
    filesScanned := [] }

/-- First witness attestation: hash as computed by the builder with an
empty parent hint under `hashPrimsId`. -/
def attC3a : Attestation :=
  { predicateType := "t", subject := [], predicate := predEx, timestamp := 1,
    runId := "r1", parentHash := "", hash := "r1|" }

/-- Second witness attestation. -/
def attC3b : Attestation :=
  { predicateType := "t", subject := [], predicate := predEx, timestamp := 2,
    runId := "r2", parentHash := "", hash := "r2|" }

/-- C3 witnessed on a concrete two-append run. -/
theorem claim_C3_witness :
    (∀ it ∈ [(attC3a, "f1", 1), (attC3b, "f2", 2)],
        it.2.1 ∈ (["f1", "f2"] : List String)) ∧
      verifyChain ["f1", "f2"]
        (appendList hashPrimsId (emptyChain "c" 0)
          [(attC3a, "f1", 1), (attC3b, "f2", 2)]) = Except.ok () :=
  ⟨by decide,
    (claim_C3 hashPrimsId ["f1", "f2"] "c" 0
      [(attC3a, "f1", 1), (attC3b, "f2", 2)] (by decide) (by decide)).1⟩

lemma verifyEntries_ok_inv (store : List String) (l : List ChainEntry) :
    ∀ (i : Nat) (prev : Option String),
      verifyEntries store i prev l = Except.ok () →
      (∀ e ∈ l, e.filePath ∈ store) ∧ linkedFrom prev l = true := by
  induction l with
  | nil => intro i prev _; exact ⟨by simp, by cases prev <;> rfl⟩
  | cons e rest ih =>
    intro i prev h
    by_cases hfile : e.filePath ∈ store
    · cases prev with
      | none =>
        simp only [verifyEntries, if_pos hfile] at h
        obtain ⟨ha, hb⟩ := ih (i + 1) (some e.hash) h
        refine ⟨?_, hb⟩
        intro x hx
        rcases List.mem_cons.mp hx with rfl | hx
        · exact hfile
        · exact ha x hx
      | some ph =>
        by_cases hpe : e.parentHash = ph
        · simp only [verifyEntries, if_pos hfile, if_pos hpe] at h
          obtain ⟨ha, hb⟩ := ih (i + 1) (some e.hash) h
          refine ⟨?_, ?_⟩
          · intro x hx
            rcases List.mem_cons.mp hx with rfl | hx
            · exact hfile
            · exact ha x hx
          · simp [linkedFrom, hpe, hb]
        · simp [verifyEntries, hfile, hpe] at h
    · simp [verifyEntries, hfile] at h

lemma linkedFrom_split (l₁ : List ChainEntry) :
    ∀ (prev : Option String) (e : ChainEntry) (l₂ : List ChainEntry),
      linkedFrom prev (l₁ ++ e :: l₂) = true →
      linkedFrom prev l₁ = true ∧
        (∀ hh, lastHash prev l₁ = some hh → e.parentHash = hh) := by
  induction l₁ with
  | nil =>
    intro prev e l₂ h
    cases prev with
    | none => exact ⟨rfl, fun hh hcontra => by cases hcontra⟩
    | some ph =>
      simp only [List.nil_append, linkedFrom, Bool.and_eq_true, beq_iff_eq] at h
      exact ⟨rfl, fun hh hs => by rw [h.1, Option.some.inj hs]⟩
  | cons x l₁ ih =>
    intro prev e l₂ h
    cases prev with
    | none =>
      have h' : linkedFrom (some x.hash) (l₁ ++ e :: l₂) = true := h
      obtain ⟨ha, hb⟩ := ih (some x.hash) e l₂ h'
      exact ⟨ha, hb⟩
    | some ph =>
      simp only [List.cons_append, linkedFrom, Bool.and_eq_true, beq_iff_eq] at h
      obtain ⟨hpe, h'⟩ := h
      obtain ⟨ha, hb⟩ := ih (some x.hash) e l₂ h'
      refine ⟨?_, hb⟩
      simp [linkedFrom, hpe, ha]

lemma verifyEntries_break (store : List String) (l₁ : List ChainEntry) :
    ∀ (i : Nat) (prev : Option String) (e' : ChainEntry) (l₂ : List ChainEntry)
      (hh : String),
      (∀ x ∈ l₁, x.filePath ∈ store) → e'.filePath ∈ store →
      linkedFrom prev l₁ = true →
      lastHash prev l₁ = some hh → e'.parentHash ≠ hh →
      verifyEntries store i prev (l₁ ++ e' :: l₂)
        = Except.error (ChainError.parentMismatch (i + l₁.length)) := by
  induction l₁ with
  | nil =>
    intro i prev e' l₂ hh _ hfe _ hlast hne
    rw [show prev = some hh from hlast]
    simp [verifyEntries, hfe, hne]
  | cons x l₁ ih =>
    intro i prev e' l₂ hh hpaths hfe hlink hlast hne
    have hfx : x.filePath ∈ store := hpaths x (by simp)
    have hpaths' : ∀ y ∈ l₁, y.filePath ∈ store := fun y hy =>
      hpaths y (by simp [hy])
    have harith : i + (x :: l₁).length = (i + 1) + l₁.length := by
      simp [List.length_cons]; omega
    rw [harith, List.cons_append]
    cases prev with
    | none =>
      have hlink' : linkedFrom (some x.hash) l₁ = true := hlink
      have hlast' : lastHash (some x.hash) l₁ = some hh := hlast
      have hrec := ih (i + 1) (some x.hash) e' l₂ hh hpaths' hfe hlink' hlast' hne
      simp only [verifyEntries, if_pos hfx]
      exact hrec
    | some ph =>
      simp only [linkedFrom, Bool.and_eq_true, beq_iff_eq] at hlink
      obtain ⟨hpe, hlink'⟩ := hlink
      have hlast' : lastHash (some x.hash) l₁ = some hh := hlast
      have hrec := ih (i + 1) (some x.hash) e' l₂ hh hpaths' hfe hlink' hlast' hne
      simp only [verifyEntries, if_pos hfx, if_pos hpe]
      exact hrec

/-- C8: in a chain of at least two entries that verifies successfully,
rewriting any single entry's `parentHash` to a different value makes
`VerifyChain` fail, and the integrity error identifies the position of the
mutated entry (the genesis parent-hash error is about entry 0; the
parent-mismatch error carries the position). -/
theorem claim_C8 (store : List String) (c : EvidenceChain)
    (l₁ : List ChainEntry) (e : ChainEntry) (l₂ : List ChainEntry) (v : String)
    (hdec : c.attestations = l₁ ++ e :: l₂)
    (hN : 2 ≤ c.attestations.length)
    (hok : verifyChain store c = Except.ok ())
    (hv : v ≠ e.parentHash) :
    verifyChain store { c with attestations := l₁ ++ { e with parentHash := v } :: l₂ }
        = Except.error
            (if l₁.length = 0 then ChainError.genesisNonEmptyParent
             else ChainError.parentMismatch l₁.length) ∧
      errorPosition
          (if l₁.length = 0 then ChainError.genesisNonEmptyParent
           else ChainError.parentMismatch l₁.length) = some l₁.length := by
  cases l₁ with
  | nil =>
    simp only [List.nil_append] at hdec
    simp only [verifyChain, hdec] at hok
    by_cases hpe : e.parentHash = ""
    · have hv' : v ≠ "" := hpe ▸ hv
      constructor
      · simp [verifyChain, hv']
      · simp [errorPosition]
    · rw [if_pos hpe] at hok
      exact Except.noConfusion hok
  | cons x l₁' =>
    simp only [verifyChain, hdec, List.cons_append] at hok
    by_cases hx0 : x.parentHash = ""
    · rw [if_neg (by simp [hx0])] at hok
      cases hve : verifyEntries store 0 none (x :: (l₁' ++ e :: l₂)) with
      | error err => rw [hve] at hok; cases hok
      | ok u =>
        obtain ⟨hpaths, hlink⟩ := verifyEntries_ok_inv store _ 0 none hve
        have hfe : e.filePath ∈ store := hpaths e (by simp)
        obtain ⟨hlink1, hlink2⟩ :=
          linkedFrom_split (x :: l₁') none e l₂ (by simpa using hlink)
        have hlast := lastHash_cons_getLast x l₁' none
        have hpe : e.parentHash
            = ((x :: l₁').getLast (List.cons_ne_nil x l₁')).hash :=
          hlink2 _ hlast
        have hpaths1 : ∀ y ∈ x :: l₁', y.filePath ∈ store := by
          intro y hy
          refine hpaths y ?_
          rcases List.mem_cons.mp hy with rfl | hy
          · exact List.mem_cons_self _ _
          · exact List.mem_cons_of_mem _ (List.mem_append.mpr (Or.inl hy))
        have hbreak := verifyEntries_break store (x :: l₁') 0 none
          { e with parentHash := v } l₂
          ((x :: l₁').getLast (List.cons_ne_nil x l₁')).hash
          hpaths1 hfe hlink1 hlast (by simpa using hpe ▸ hv)
        constructor
        · simp only [verifyChain, List.cons_append]
          rw [if_neg (by simp [hx0])]
          rw [List.cons_append] at hbreak
          rw [hbreak]
          simp [List.length_cons]
        · simp [errorPosition]
    · rw [if_pos hx0] at hok
      exact Except.noConfusion hok

/-- Entries of the concrete verified two-entry chain for the C8 witness. -/
def entryC8a : ChainEntry :=
  { hash := "h1", parentHash := "", timestamp := 1, runId := "r1",
    status := "pass", filePath := "f1" }

/-- Second witness entry, linked to the first. -/
def entryC8b : ChainEntry :=
  { hash := "h2", parentHash := "h1", timestamp := 2, runId := "r2",
    status := "pass", filePath := "f2" }

/-- The concrete verified two-entry chain for the C8 witness. -/
def chainC8 : EvidenceChain :=
  { chainId := "c", startTime := 0, lastUpdated := 2, length := 2,
    head := "h2", genesis := "h1", attestations := [entryC8a, entryC8b] }

/-- C8 witnessed: the concrete chain verifies, and after mutating the
second entry's parent hash verification reports a parent mismatch at
position 1. -/
theorem claim_C8_witness :
    verifyChain ["f1", "f2"] chainC8 = Except.ok () ∧
      verifyChain ["f1", "f2"]
          { chainC8 with
              attestations := [entryC8a] ++ { entryC8b with parentHash := "zz" } :: [] }
        = Except.error
            (if ([entryC8a] : List ChainEntry).length = 0 then
              ChainError.genesisNonEmptyParent
             else ChainError.parentMismatch ([entryC8a] : List ChainEntry).length) :=
  ⟨by decide,
    (claim_C8 ["f1", "f2"] chainC8 [entryC8a] entryC8b [] "zz" (by decide)
      (by decide) (by decide) (by decide)).1⟩

lemma sorted_insertionSort_ts (l : List ChainEntry) :
    List.Pairwise (fun a b => a.timestamp ≤ b.timestamp)
      (l.insertionSort (fun a b => a.timestamp ≤ b.timestamp)) := by
  haveI ht : IsTotal ChainEntry (fun a b => a.timestamp ≤ b.timestamp) :=
    ⟨fun a b => Nat.le_total a.timestamp b.timestamp⟩
  haveI htr : IsTrans ChainEntry (fun a b => a.timestamp ≤ b.timestamp) :=
    ⟨fun a b c hab hbc => Nat.le_trans hab hbc⟩
  exact List.sorted_insertionSort _ l

lemma sorted_three_unique (e1 e2 e3 : ChainEntry) (l : List ChainEntry)
    (hperm : l.Perm [e1, e2, e3])
    (hsort : List.Pairwise (fun a b => a.timestamp ≤ b.timestamp) l)
    (t12 : e1.timestamp < e2.timestamp) (t23 : e2.timestamp < e3.timestamp) :
    l = [e1, e2, e3] := by
  refine List.Perm.eq_of_sorted ?_ hsort ?_ hperm
  · intro a b ha hb hab hba
    have ha' : a ∈ [e1, e2, e3] := hperm.subset ha
    have hb' : b ∈ [e1, e2, e3] := hb
    simp only [List.mem_cons, List.not_mem_nil, or_false] at ha' hb'
    rcases ha' with rfl | rfl | rfl <;> rcases hb' with rfl | rfl | rfl <;>
      first
        | rfl
        | (exfalso; omega)
  · refine List.Pairwise.cons ?_
      (List.Pairwise.cons ?_ (List.Pairwise.cons ?_ List.Pairwise.nil))
    · intro b hb
      rcases List.mem_cons.mp hb with rfl | hb
      · omega
      · rcases List.mem_cons.mp hb with rfl | hb
        · omega
        · simp at hb
    · intro b hb
      rcases List.mem_cons.mp hb with rfl | hb
      · omega
      · simp at hb
    · intro b hb
      simp at hb

/-- C5: rebuilding from a store holding the three persisted (linked)
artifacts of a timestamp-ordered run, inserted in arbitrary file order,
reproduces exactly the linkage — entry hashes, parent links, head, genesis
and length — of the chain obtained by sequentially appending the same
three attestations in timestamp order. (The persisted artifacts carry the
post-link hashes, which is what `mondrian attest` stores.) -/
theorem claim_C5 (P : HashPrims) (cid cid' : String) (now t0 : Nat)
    (a1 a2 a3 : Attestation) (f1 f2 f3 : String) (n1 n2 n3 : Nat)
    (arts : List (String × Attestation))
    (hperm : arts.Perm [(f1, a1), (f2, a2), (f3, a3)])
    (t12 : a1.timestamp < a2.timestamp) (t23 : a2.timestamp < a3.timestamp)
    (h1 : a1.hash = calculateHash P { a1 with parentHash := "" })
    (h2 : a2.hash = calculateHash P { a2 with parentHash := a1.hash })
    (h3 : a3.hash = calculateHash P { a3 with parentHash := a2.hash }) :
    (scanAndRepair cid now arts).attestations.map (fun e => (e.hash, e.parentHash))
        = (appendList P (emptyChain cid' t0)
            [(a1, f1, n1), (a2, f2, n2), (a3, f3, n3)]).attestations.map
            (fun e => (e.hash, e.parentHash)) ∧
      (scanAndRepair cid now arts).head
          = (appendList P (emptyChain cid' t0)
              [(a1, f1, n1), (a2, f2, n2), (a3, f3, n3)]).head ∧
      (scanAndRepair cid now arts).genesis
          = (appendList P (emptyChain cid' t0)
              [(a1, f1, n1), (a2, f2, n2), (a3, f3, n3)]).genesis ∧
      (scanAndRepair cid now arts).length
          = (appendList P (emptyChain cid' t0)
              [(a1, f1, n1), (a2, f2, n2), (a3, f3, n3)]).length := by
  have hlen3 : arts.length = 3 := by simpa using hperm.length_eq
  cases arts with
  | nil => simp at hlen3
  | cons p arts' =>
    have hpermE : ((p :: arts').map (fun fa => entryOfArtifact fa.1 fa.2)).Perm
        [entryOfArtifact f1 a1, entryOfArtifact f2 a2, entryOfArtifact f3 a3] := by
      simpa using hperm.map (fun fa => entryOfArtifact fa.1 fa.2)
    have hpermS :
        (((p :: arts').map (fun fa => entryOfArtifact fa.1 fa.2)).insertionSort
            (fun a b => a.timestamp ≤ b.timestamp)).Perm
          [entryOfArtifact f1 a1, entryOfArtifact f2 a2, entryOfArtifact f3 a3] :=
      (List.perm_insertionSort _ _).trans hpermE
    have hsortEq :
        ((p :: arts').map (fun fa => entryOfArtifact fa.1 fa.2)).insertionSort
            (fun a b => a.timestamp ≤ b.timestamp)
          = [entryOfArtifact f1 a1, entryOfArtifact f2 a2, entryOfArtifact f3 a3] :=
      sorted_three_unique _ _ _ _ hpermS (sorted_insertionSort_ts _) t12 t23
    have hA : appendList P (emptyChain cid' t0)
        [(a1, f1, n1), (a2, f2, n2), (a3, f3, n3)]
        = { chainId := cid', startTime := t0, lastUpdated := n3, length := 3,
            head := a3.hash, genesis := a1.hash,
            attestations :=
              [{ hash := a1.hash, parentHash := "", timestamp := a1.timestamp,
                 runId := a1.runId,
                 status := a1.predicate.summary.overallStatus, filePath := f1 },
               { hash := a2.hash, parentHash := a1.hash,
                 timestamp := a2.timestamp, runId := a2.runId,
                 status := a2.predicate.summary.overallStatus, filePath := f2 },
               { hash := a3.hash, parentHash := a2.hash,
                 timestamp := a3.timestamp, runId := a3.runId,
                 status := a3.predicate.summary.overallStatus,
                 filePath := f3 }] } := by
      simp only [appendList, List.foldl, addAttestation, emptyChain]
      norm_num
      rw [← h1, ← h2, ← h3]
      simp
    refine ⟨?_, ?_, ?_, ?_⟩ <;>
      (rw [hA]; simp only [scanAndRepair]; rw [hsortEq];
        simp [relink, entryOfArtifact, List.getLast])

/-- First stored artifact for the C5 witness: the genesis attestation as
persisted after linking under `hashPrimsId`. -/
def attC5a : Attestation :=
  { predicateType := "t", subject := [], predicate := predEx, timestamp := 1,
    runId := "r1", parentHash := "", hash := "r1|" }

/-- Second stored artifact for the C5 witness, linked to the first. -/
def attC5b : Attestation :=
  { predicateType := "t", subject := [], predicate := predEx, timestamp := 2,
    runId := "r2", parentHash := "r1|", hash := "r2|r1|" }

/-- Third stored artifact for the C5 witness, linked to the second. -/
def attC5c : Attestation :=
  { predicateType := "t", subject := [], predicate := predEx, timestamp := 3,
    runId := "r3", parentHash := "r2|r1|", hash := "r3|r2|r1|" }

/-- C5 witnessed with the three artifacts inserted out of order. -/
theorem claim_C5_witness :
    ([("f3", attC5c), ("f1", attC5a), ("f2", attC5b)]
          : List (String × Attestation)).Perm
        [("f1", attC5a), ("f2", attC5b), ("f3", attC5c)] ∧
      (scanAndRepair "cid" 9
            [("f3", attC5c), ("f1", attC5a), ("f2", attC5b)]).attestations.map
          (fun e => (e.hash, e.parentHash))
        = (appendList hashPrimsId (emptyChain "c" 0)
            [(attC5a, "f1", 1), (attC5b, "f2", 2), (attC5c, "f3", 3)]).attestations.map
            (fun e => (e.hash, e.parentHash)) :=
  ⟨by decide,
    (claim_C5 hashPrimsId "cid" "c" 9 0 attC5a attC5b attC5c "f1" "f2" "f3" 1 2 3
      [("f3", attC5c), ("f1", attC5a), ("f2", attC5b)] (by decide) (by decide)
      (by decide) (by decide) (by decide) (by decide)).1⟩

/-- C10 witnessed on a concrete store listing containing the saved name. -/
theorem claim_C10_witness :
    isAttestationFileName
        (savedAttestationFileName (fun _ => "20250913-120000".toList) signedEx)
        = true ∧
      savedAttestationFileName (fun _ => "20250913-120000".toList) signedEx
        ∈ findAttestationFiles
            ["chain.json".toList,
             savedAttestationFileName (fun _ => "20250913-120000".toList) signedEx] :=
  claim_C10 (fun _ => "20250913-120000".toList) signedEx _ (by decide)

end Mondrian
